import Mathlib

/-!
Verification of the multi-unit symbol graph walker and re-export resolver of
the rustdoc-rag repository (src/main.rs and src/document_struct.rs).

The Rust walker (`start_krate`, `item_explorer`, `module_explorer`,
`enum_explorer`) is embedded as a fuel-indexed function: the Rust recursion
has no structural measure (it terminates only through the visited set), so
every recursive step consumes one unit of fuel and exhaustion is reported as
a distinguished error.  Rust panics (`unwrap`, `todo!`) are embedded as
`Except.error` values; the file writes performed by `document_struct` are
embedded as an emitted list of `EmitCall` records, in emission order.
-/

namespace RustdocRag

/-- Symbol ids are `u32` in rustdoc_types; the sentinel the walker passes for
cross-unit re-exports is `u32::MAX`. -/
def u32Max : Nat := 4294967295

/-- `rustdoc_types::StructKind`: unit struct, tuple struct (positional field
ids, optionally stripped), or plain struct with named field ids.  The walker
reads only the field-id list of the `Plain` case. -/
inductive StructKind where
  | unit : StructKind
  | tuple : List (Option Nat) → StructKind
  | plain : List Nat → Bool → StructKind
deriving DecidableEq, Repr

/-- `rustdoc_types::ItemEnum`, restricted to the payload components the
program reads: module child ids, re-export source path and pre-resolved id,
struct kind, and enum variant ids.  All other variants' payloads are never
inspected by the code and are omitted. -/
inductive ItemEnum where
  | module : List Nat → ItemEnum
  | externCrate : ItemEnum
  | useDecl : String → Option Nat → ItemEnum
  | unionDecl : ItemEnum
  | structDecl : StructKind → ItemEnum
  | structField : ItemEnum
  | enumDecl : List Nat → ItemEnum
  | variantDecl : ItemEnum
  | functionDecl : ItemEnum
  | traitDecl : ItemEnum
  | traitAlias : ItemEnum
  | implBlock : ItemEnum
  | typeAlias : ItemEnum
  | constantDecl : ItemEnum
  | staticDecl : ItemEnum
  | externType : ItemEnum
  | macroDecl : ItemEnum
  | procMacroDecl : ItemEnum
  | primitiveDecl : ItemEnum
  | assocConst : ItemEnum
  | assocType : ItemEnum
deriving DecidableEq, Repr

/-- `rustdoc_types::Item`, restricted to the attributes the program reads:
optional display name, optional documentation, and the kind payload. -/
structure Item where
  name : Option String
  docs : Option String
  inner : ItemEnum
deriving DecidableEq, Repr

/-- `rustdoc_types::Crate`, restricted to the attributes the walker reads:
the root id and the symbol table (id → item).  The table is embedded as an
association list with unique keys; the program only ever calls `.get`. -/
structure Crate where
  root : Nat
  index : List (Nat × Item)
deriving DecidableEq, Repr

/-- `type CrateCatalog = [Option<(String, rustdoc_types::Crate)>]` from
src/main.rs: slot 0 is the primary unit, further slots are dependencies and
may be empty. -/
abbrev CrateCatalog := List (Option (String × Crate))

/-- The visited set `HashSet<(usize, rustdoc_types::Id)>`, embedded as a
duplicate-free list of (unit id, symbol id) pairs. -/
abbrev Visited := List (Nat × Nat)

/-- One call to the leaf document emitter (`StructDocument::write` in
src/document_struct.rs): the struct name, its docs and the (field name,
field docs) pairs, in declaration order. -/
structure EmitCall where
  name : String
  docs : Option String
  fields : List (String × Option String)
deriving DecidableEq, Repr

/-- The fatal conditions of the program: `outOfFuel` is the embedding
artefact for exceeding the fuel, the others embed Rust panics:
`unsupported` for `todo!()`, `catalogMiss` for a failed catalog slot access
(`crates[i]` out of bounds or `.as_ref().unwrap()` on an empty slot),
`rootMiss` for `index.get(&root).unwrap()` failing, `useIdMiss` for
`used.id.unwrap()` failing, `nameMiss` for `name.as_ref().unwrap()` failing,
`fieldMiss` for `index.get(field).unwrap()` failing. -/
inductive WalkError where
  | outOfFuel : WalkError
  | unsupported : WalkError
  | catalogMiss : WalkError
  | rootMiss : WalkError
  | useIdMiss : WalkError
  | nameMiss : WalkError
  | fieldMiss : WalkError
deriving DecidableEq, Repr

/-- Decidable equality of traversal results, used to evaluate the embedded
program on concrete catalogs. -/
instance {e a : Type} [DecidableEq e] [DecidableEq a] : DecidableEq (Except e a) :=
  fun x y =>
    match x, y with
    | .ok u, .ok w => if h : u = w then .isTrue (by rw [h]) else .isFalse (by simp [h])
    | .error u, .error w => if h : u = w then .isTrue (by rw [h]) else .isFalse (by simp [h])
    | .ok _, .error _ => .isFalse (by simp)
    | .error _, .ok _ => .isFalse (by simp)

/-- Symbol-table lookup, `krate.1.index.get(&id)`. -/
def indexLookup : List (Nat × Item) → Nat → Option Item
  | [], _ => none
  | (k, it) :: rest, id => if k = id then some it else indexLookup rest id

/-- Catalog slot access: `crates[cur]` followed by `.as_ref()`, flattening
the out-of-bounds and empty-slot cases (both are panics in the source). -/
def slotGet (crates : CrateCatalog) (cur : Nat) : Option (String × Crate) :=
  match crates[cur]? with
  | none => none
  | some none => none
  | some (some nk) => some nk

/-- The item-resolution step of `item_explorer` (src/main.rs lines 221-225):
look the id up in the unit's table, fall back to the root record when
absent.  `none` means even the root id is missing (the `unwrap` panics). -/
def resolveLookup (k : Crate) (id : Nat) : Option Item :=
  match indexLookup k.index id with
  | some it => some it
  | none => indexLookup k.index k.root

/-- Characters of a re-export source path up to the leftmost occurrence of
the `"::"` separator (all of them when the separator does not occur). -/
def firstSegmentAux : List Char → List Char
  | [] => []
  | ':' :: ':' :: _ => []
  | c :: rest => c :: firstSegmentAux rest

/-- `used.source.split("::").next().unwrap()`: the first path segment of a
re-export source (always defined; the empty source yields the empty
segment). -/
def firstSegment (s : String) : String := String.mk (firstSegmentAux s.data)

/-- The linear name scan of the use-dispatch (src/main.rs lines 236-248):
first present slot whose unit name equals the sought name, lowest index
wins. -/
def findUnitByName : CrateCatalog → String → Option Nat
  | [], _ => none
  | none :: rest, n => (findUnitByName rest n).map (· + 1)
  | some (nm, _) :: rest, n =>
      if nm = n then some 0 else (findUnitByName rest n).map (· + 1)

/-- Field resolution inside `document_struct` (src/document_struct.rs lines
36-48): re-fetch the current catalog slot, look the field id up, and unwrap
the field's name. -/
def resolveField (crates : CrateCatalog) (cur : Nat) (fid : Nat) :
    Except WalkError (String × Option String) :=
  match slotGet crates cur with
  | none => .error .catalogMiss
  | some (_, k) =>
    match indexLookup k.index fid with
    | none => .error .fieldMiss
    | some f =>
      match f.name with
      | none => .error .nameMiss
      | some n => .ok (n, f.docs)

/-- The `fields.iter().map(...).collect()` of `document_struct`: resolve
each named field id in declaration order, aborting at the first failing
unwrap exactly as the Rust iterator does. -/
def collectFields (crates : CrateCatalog) (cur : Nat) :
    List Nat → Except WalkError (List (String × Option String))
  | [] => pure []
  | fid :: rest => do
    let f ← resolveField crates cur fid
    let fs ← collectFields crates cur rest
    pure (f :: fs)

/-- `document_struct` (src/document_struct.rs lines 16-54): unwrap the
item's name, resolve the named fields for a `Plain` struct (unit and tuple
structs contribute no fields), and emit one document. -/
def document_struct (item : Item) (stru : StructKind) (cur : Nat)
    (crates : CrateCatalog) : Except WalkError EmitCall := do
  let name ← match item.name with
    | none => Except.error WalkError.nameMiss
    | some n => pure n
  let fields ← match stru with
    | .unit => pure []
    | .tuple _ => pure []
    | .plain fs _ => collectFields crates cur fs
  pure { name := name, docs := item.docs, fields := fields }

/-- Sequencing of sibling walker calls: `module_explorer`'s `for` loop and
`enum_explorer`'s `for_each` both invoke the walker on each id in order,
threading the visited set; emissions are concatenated in order.  An error
aborts the whole sequence (a Rust panic aborts the process). -/
def walkList (g : Nat → Visited → Except WalkError (Visited × List EmitCall)) :
    List Nat → Visited → Except WalkError (Visited × List EmitCall)
  | [], v => .ok (v, [])
  | i :: rest, v => do
    let (v1, e1) ← g i v
    let (v2, e2) ← walkList g rest v1
    pure (v2, e1 ++ e2)

/-- `module_explorer` (src/main.rs lines 276-286): walk every child id of a
module, in declaration order. -/
def module_explorer
    (go : Nat → Nat → Visited → Except WalkError (Visited × List EmitCall))
    (items : List Nat) (cur : Nat) (v : Visited) :
    Except WalkError (Visited × List EmitCall) :=
  walkList (fun i => go i cur) items v

/-- `enum_explorer` (src/main.rs lines 288-298): walk every variant id of an
enum, in declaration order. -/
def enum_explorer
    (go : Nat → Nat → Visited → Except WalkError (Visited × List EmitCall))
    (variants : List Nat) (cur : Nat) (v : Visited) :
    Except WalkError (Visited × List EmitCall) :=
  walkList (fun i => go i cur) variants v

/-- The kind dispatch of `item_explorer` (src/main.rs lines 226-273).
`go id cur v` is the recursive walker invocation (the fuel and the depth
increment are supplied by the caller).  `todo!()` arms are `unsupported`
errors; arms with empty bodies are no-ops. -/
def dispatchItem
    (go : Nat → Nat → Visited → Except WalkError (Visited × List EmitCall))
    (item : Item) (cur : Nat) (crates : CrateCatalog) (v : Visited) :
    Except WalkError (Visited × List EmitCall) :=
  match item.inner with
  | .module items => module_explorer go items cur v
  | .externCrate => .error .unsupported
  | .useDecl source pid =>
    let crateName := firstSegment source
    if crateName = "crate" ∨ crateName = "super" then
      match pid with
      | none => .error .useIdMiss
      | some y => go y cur v
    else
      match findUnitByName crates crateName with
      | some j => go u32Max j v
      | none =>
        match pid with
        | none => .error .useIdMiss
        | some y => go y cur v
  | .unionDecl => .error .unsupported
  | .structDecl stru => do
    let e ← document_struct item stru cur crates
    pure (v, [e])
  | .structField => .ok (v, [])
  | .enumDecl variants => enum_explorer go variants cur v
  | .variantDecl => .ok (v, [])
  | .functionDecl => .ok (v, [])
  | .traitDecl => .ok (v, [])
  | .traitAlias => .error .unsupported
  | .implBlock => .ok (v, [])
  | .typeAlias => .ok (v, [])
  | .constantDecl => .ok (v, [])
  | .staticDecl => .ok (v, [])
  | .externType => .error .unsupported
  | .macroDecl => .ok (v, [])
  | .procMacroDecl => .ok (v, [])
  | .primitiveDecl => .error .unsupported
  | .assocConst => .error .unsupported
  | .assocType => .ok (v, [])

/-- `item_explorer` (src/main.rs lines 210-274).  The visited check and
insertion come first, exactly as `visited.insert` does in the source; the
fuel check guards only the productive path, so an already-visited pair
returns immediately at any fuel.  On success the grown visited set and the
emissions (in order) are returned. -/
def item_explorer : Nat → Nat → Nat → CrateCatalog → Visited → Nat →
    Except WalkError (Visited × List EmitCall)
  | 0, id, cur, _, visited, _ =>
    if (cur, id) ∈ visited then .ok (visited, []) else .error .outOfFuel
  | fuel + 1, id, cur, crates, visited, depth =>
    if (cur, id) ∈ visited then .ok (visited, [])
    else
      match slotGet crates cur with
      | none => .error .catalogMiss
      | some (_, k) =>
        match resolveLookup k id with
        | none => .error .rootMiss
        | some item =>
          dispatchItem
            (fun i c vv => item_explorer fuel i c crates vv (depth + 1))
            item cur crates ((cur, id) :: visited)

/-- `start_krate` (src/main.rs lines 205-208): unwrap slot 0 and walk from
its root with an empty visited set at depth 0. -/
def start_krate (fuel : Nat) (crates : CrateCatalog) :
    Except WalkError (Visited × List EmitCall) :=
  match slotGet crates 0 with
  | none => .error .catalogMiss
  | some (_, k) => item_explorer fuel k.root 0 crates [] 0

/-- The ids a dispatched item can hand to a recursive walker invocation:
module children, the pre-resolved id of a re-export, enum variants.  (The
cross-unit sentinel `u32Max` is accounted for separately.) -/
def itemChildIds : ItemEnum → List Nat
  | .module items => items
  | .useDecl _ pid => pid.toList
  | .enumDecl vs => vs
  | _ => []

/-- Every id mentioned by one unit: its root, its table's keys, and every
child id of its items. -/
def crateIds (k : Crate) : List Nat :=
  k.root :: k.index.flatMap (fun e => e.1 :: itemChildIds e.2.inner)

/-- Every id a traversal of the catalog can ever visit: the sentinel plus
the ids of every present unit. -/
def catalogIds (crates : CrateCatalog) : List Nat :=
  u32Max :: crates.flatMap (fun s => match s with
    | none => []
    | some (_, k) => crateIds k)

/-- The finite set of (unit id, symbol id) pairs a traversal can mark
visited and still continue from. -/
def allPairs (crates : CrateCatalog) : Finset (Nat × Nat) :=
  Finset.range crates.length ×ˢ (catalogIds crates).toFinset

/-- Fuel sufficient for a full traversal: the walker marks a fresh pair
before every productive step, so the recursion depth never exceeds the
number of distinct reachable (unit, id) pairs. -/
def fuelBound (crates : CrateCatalog) : Nat := (allPairs crates).card

/-- How many reachable (unit, id) pairs are not yet marked visited: the
traversal's termination measure. -/
def deficit (crates : CrateCatalog) (v : Visited) : Nat :=
  (allPairs crates \ v.toFinset).card

/-- The kinds whose dispatch arm in src/main.rs is `todo!()`: ExternCrate,
Union, TraitAlias, ExternType, Primitive, AssocConst. -/
def UnsupportedKind (i : ItemEnum) : Prop :=
  i = .externCrate ∨ i = .unionDecl ∨ i = .traitAlias ∨ i = .externType ∨
    i = .primitiveDecl ∨ i = .assocConst

/-- Whether a catalog slot is either empty or a present unit whose root id
is a key of its own symbol table. -/
def rootResolves : Option (String × Crate) → Bool
  | none => true
  | some (_, k) => (indexLookup k.index k.root).isSome

/-- Every present unit's root id resolves in its own symbol table (the
precondition of claim C10). -/
abbrev RootsResolve (crates : CrateCatalog) : Prop :=
  ∀ s ∈ crates, rootResolves s = true

/-! ### Concrete catalogs used to evaluate the embedding -/

/-- A dependency unit whose symbol table contains the sentinel id `u32Max`
as a genuine key (mapped to a function item): its root is a module whose
only child is a documented unit struct. -/
def depCrateKeyed : Crate :=
  ⟨0, [(0, ⟨some "dep", none, .module [1]⟩),
       (1, ⟨some "Target", some "target docs", .structDecl .unit⟩),
       (u32Max, ⟨some "f", none, .functionDecl⟩)]⟩

/-- The same dependency unit without the sentinel key. -/
def depCrateFree : Crate :=
  ⟨0, [(0, ⟨some "dep", none, .module [1]⟩),
       (1, ⟨some "Target", some "target docs", .structDecl .unit⟩)]⟩

/-- A primary unit whose root module contains one re-export of
`dep::thing`. -/
def mainCrateUse : Crate :=
  ⟨0, [(0, ⟨some "main", none, .module [1]⟩),
       (1, ⟨none, none, .useDecl "dep::thing" (some 99)⟩)]⟩

/-- Catalog whose dependency table holds the sentinel id as a key. -/
def catSentinelKeyed : CrateCatalog :=
  [some ("main", mainCrateUse), some ("dep", depCrateKeyed)]

/-- Catalog whose dependency table does not hold the sentinel id. -/
def catSentinelFree : CrateCatalog :=
  [some ("main", mainCrateUse), some ("dep", depCrateFree)]

/-- A single unit whose root module contains a unit struct whose display
name is the empty string. -/
def catEmptyName : CrateCatalog :=
  [some ("main", ⟨0, [(0, ⟨some "main", none, .module [1]⟩),
                      (1, ⟨some "", none, .structDecl .unit⟩)]⟩)]

/-- A single unit holding only its root module, used to exercise the
root-fallback policy on an absent id. -/
def catRootFall : CrateCatalog :=
  [some ("m", ⟨0, [(0, ⟨some "m", none, .module []⟩)]⟩)]

/-- A single unit whose root module contains a union (unsupported kind)
followed by a sibling struct. -/
def catUnsupported : CrateCatalog :=
  [some ("m", ⟨0, [(0, ⟨some "m", none, .module [1, 2]⟩),
                   (1, ⟨some "U", none, .unionDecl⟩),
                   (2, ⟨some "S", none, .structDecl .unit⟩)]⟩)]

/-- A single unit whose root module contains a plain struct with two named
fields, the first documented and the second not. -/
def catPlain : CrateCatalog :=
  [some ("m", ⟨0, [(0, ⟨some "m", none, .module [1]⟩),
                   (1, ⟨some "S", some "sdoc", .structDecl (.plain [2, 3] false)⟩),
                   (2, ⟨some "a", some "doc a", .structField⟩),
                   (3, ⟨some "b", none, .structField⟩)]⟩)]

/-- A single unit whose root module contains a `crate::`-prefixed re-export
carrying pre-resolved id 2, which is a function item. -/
def catCrateUse : CrateCatalog :=
  [some ("m", ⟨0, [(0, ⟨some "m", none, .module [1]⟩),
                   (1, ⟨none, none, .useDecl "crate::x" (some 2)⟩),
                   (2, ⟨some "f", none, .functionDecl⟩)]⟩)]

/-- A single unit whose root module contains an enum with two variants. -/
def catEnum : CrateCatalog :=
  [some ("m", ⟨0, [(0, ⟨some "m", none, .module [1]⟩),
                   (1, ⟨some "E", none, .enumDecl [2, 3]⟩),
                   (2, ⟨some "A", none, .variantDecl⟩),
                   (3, ⟨some "B", none, .variantDecl⟩)]⟩)]

/-! ### Basic lemmas about the lookup helpers -/

theorem indexLookup_mem {idx : List (Nat × Item)} {id : Nat} {it : Item}
    (h : indexLookup idx id = some it) : (id, it) ∈ idx := by
  induction idx with
  | nil => simp [indexLookup] at h
  | cons e rest ih =>
    obtain ⟨k, w⟩ := e
    by_cases hk : k = id
    · subst hk
      simp [indexLookup] at h
      simp [h]
    · simp only [indexLookup, if_neg hk] at h
      exact List.mem_cons_of_mem _ (ih h)

theorem slotGet_eq {crates : CrateCatalog} {cur : Nat} {nk : String × Crate}
    (h : slotGet crates cur = some nk) : crates[cur]? = some (some nk) := by
  unfold slotGet at h
  cases hc : crates[cur]? with
  | none => rw [hc] at h; exact absurd h (by simp)
  | some s =>
    cases s with
    | none => rw [hc] at h; exact absurd h (by simp)
    | some x => rw [hc] at h; simp at h; rw [h]

theorem slotGet_lt {crates : CrateCatalog} {cur : Nat} {nk : String × Crate}
    (h : slotGet crates cur = some nk) : cur < crates.length := by
  have := slotGet_eq h
  rw [List.getElem?_eq_some] at this
  exact this.1

theorem slotGet_mem {crates : CrateCatalog} {cur : Nat} {nk : String × Crate}
    (h : slotGet crates cur = some nk) : some nk ∈ crates :=
  List.getElem?_mem (slotGet_eq h)

theorem findUnitByName_spec {crates : CrateCatalog} {n : String} {j : Nat}
    (h : findUnitByName crates n = some j) :
    (∃ k, crates[j]? = some (some (n, k))) ∧
      ∀ i, i < j → ∀ nm k, crates[i]? = some (some (nm, k)) → nm ≠ n := by
  induction crates generalizing j with
  | nil => simp [findUnitByName] at h
  | cons s rest ih =>
    cases s with
    | none =>
      simp only [findUnitByName, Option.map_eq_some'] at h
      obtain ⟨j', hj', rfl⟩ := h
      obtain ⟨⟨k, hk⟩, hmin⟩ := ih hj'
      refine ⟨⟨k, by simpa using hk⟩, ?_⟩
      intro i hi nm kk hik
      cases i with
      | zero => simp at hik
      | succ i' =>
        simp only [List.getElem?_cons_succ] at hik
        exact hmin i' (by omega) nm kk hik
    | some nmk =>
      obtain ⟨nm0, k0⟩ := nmk
      by_cases hn : nm0 = n
      · subst hn
        simp only [findUnitByName, if_pos rfl] at h
        obtain rfl : (0 : Nat) = j := by simpa using h
        exact ⟨⟨k0, by simp⟩, by intro i hi; omega⟩
      · simp only [findUnitByName, if_neg hn, Option.map_eq_some'] at h
        obtain ⟨j', hj', rfl⟩ := h
        obtain ⟨⟨k, hk⟩, hmin⟩ := ih hj'
        refine ⟨⟨k, by simpa using hk⟩, ?_⟩
        intro i hi nm kk hik
        cases i with
        | zero =>
          simp at hik
          rw [← hik.1]
          exact hn
        | succ i' =>
          simp only [List.getElem?_cons_succ] at hik
          exact hmin i' (by omega) nm kk hik

/-! ### Monotone growth of the visited set -/

theorem walkList_mono
    {g : Nat → Visited → Except WalkError (Visited × List EmitCall)}
    (hg : ∀ i v v' es, g i v = .ok (v', es) → v ⊆ v') :
    ∀ ids v v' es, walkList g ids v = .ok (v', es) → v ⊆ v' := by
  intro ids
  induction ids with
  | nil =>
    intro v v' es h
    simp [walkList] at h
    rw [h.1]
    exact fun a ha => ha
  | cons i rest ih =>
    intro v v' es h
    simp only [walkList] at h
    cases hgi : g i v with
    | error e => rw [hgi] at h; simp [Bind.bind, Except.bind] at h
    | ok p =>
      obtain ⟨v1, e1⟩ := p
      rw [hgi] at h
      simp only [Bind.bind, Except.bind] at h
      cases hrest : walkList g rest v1 with
      | error e => rw [hrest] at h; simp at h
      | ok q =>
        obtain ⟨v2, e2⟩ := q
        rw [hrest] at h
        simp only [pure, Except.pure, Except.ok.injEq, Prod.mk.injEq] at h
        rw [← h.1]
        exact (hg i v v1 e1 hgi).trans (ih v1 v2 e2 hrest)

theorem dispatchItem_mono
    {go : Nat → Nat → Visited → Except WalkError (Visited × List EmitCall)}
    (hgo : ∀ i c v v' es, go i c v = .ok (v', es) → v ⊆ v')
    (item : Item) (cur : Nat) (crates : CrateCatalog) (v : Visited)
    (v' : Visited) (es : List EmitCall)
    (h : dispatchItem go item cur crates v = .ok (v', es)) : v ⊆ v' := by
  cases hi : item.inner <;>
    simp only [dispatchItem, hi, module_explorer, enum_explorer] at h
  case module items =>
    exact walkList_mono (fun i => hgo i cur) items v v' es h
  case externCrate => simp at h
  case useDecl source pid =>
    split at h
    · cases pid with
      | none => simp at h
      | some y => exact hgo y cur v v' es h
    · cases hf : findUnitByName crates (firstSegment source) with
      | some j => rw [hf] at h; exact hgo u32Max j v v' es h
      | none =>
        rw [hf] at h
        cases pid with
        | none => simp at h
        | some y => exact hgo y cur v v' es h
  case unionDecl => simp at h
  case structDecl stru =>
    cases hd : document_struct item stru cur crates with
    | error e => rw [hd] at h; simp [Bind.bind, Except.bind] at h
    | ok e =>
      rw [hd] at h
      simp only [Bind.bind, Except.bind, pure, Except.pure, Except.ok.injEq,
        Prod.mk.injEq] at h
      rw [← h.1]
      exact fun a ha => ha
  case structField => simp at h; rw [← h.1]; exact fun a ha => ha
  case enumDecl vs =>
    exact walkList_mono (fun i => hgo i cur) vs v v' es h
  case variantDecl => simp at h; rw [← h.1]; exact fun a ha => ha
  case functionDecl => simp at h; rw [← h.1]; exact fun a ha => ha
  case traitDecl => simp at h; rw [← h.1]; exact fun a ha => ha
  case traitAlias => simp at h
  case implBlock => simp at h; rw [← h.1]; exact fun a ha => ha
  case typeAlias => simp at h; rw [← h.1]; exact fun a ha => ha
  case constantDecl => simp at h; rw [← h.1]; exact fun a ha => ha
  case staticDecl => simp at h; rw [← h.1]; exact fun a ha => ha
  case externType => simp at h
  case macroDecl => simp at h; rw [← h.1]; exact fun a ha => ha
  case procMacroDecl => simp at h; rw [← h.1]; exact fun a ha => ha
  case primitiveDecl => simp at h
  case assocConst => simp at h
  case assocType => simp at h; rw [← h.1]; exact fun a ha => ha

theorem item_explorer_mono (fuel : Nat) :
    ∀ id cur crates v depth v' es,
      item_explorer fuel id cur crates v depth = .ok (v', es) → v ⊆ v' := by
  induction fuel with
  | zero =>
    intro id cur crates v depth v' es h
    simp only [item_explorer] at h
    split at h
    · simp at h; rw [← h.1]; exact fun a ha => ha
    · simp at h
  | succ f ih =>
    intro id cur crates v depth v' es h
    simp only [item_explorer] at h
    split at h
    · simp at h; rw [← h.1]; exact fun a ha => ha
    · cases hs : slotGet crates cur with
      | none => rw [hs] at h; simp at h
      | some nk =>
        obtain ⟨nm, k⟩ := nk
        simp only [hs] at h
        cases hr : resolveLookup k id with
        | none => simp only [hr] at h; simp at h
        | some item =>
          simp only [hr] at h
          have := dispatchItem_mono
            (fun i c vv v'' es' h' => ih i c crates vv (depth + 1) v'' es' h')
            item cur crates ((cur, id) :: v) v' es h
          exact (List.subset_cons_self _ _).trans this

/-! ### Bounding the reachable pairs: fuel sufficiency -/

theorem root_mem_crateIds (k : Crate) : k.root ∈ crateIds k := by
  simp [crateIds]

theorem childIds_sub_crateIds {k : Crate} {i : Nat} {it : Item}
    (h : (i, it) ∈ k.index) : ∀ x ∈ itemChildIds it.inner, x ∈ crateIds k := by
  intro x hx
  simp only [crateIds, List.mem_cons, List.mem_flatMap]
  right
  exact ⟨(i, it), h, by simp [hx]⟩

theorem mem_catalogIds {crates : CrateCatalog} {nm : String} {k : Crate}
    (hk : some (nm, k) ∈ crates) {i : Nat} (hi : i ∈ crateIds k) :
    i ∈ catalogIds crates := by
  simp only [catalogIds, List.mem_cons, List.mem_flatMap]
  right
  exact ⟨some (nm, k), hk, by simp [hi]⟩

theorem u32Max_mem_catalogIds (crates : CrateCatalog) : u32Max ∈ catalogIds crates := by
  simp [catalogIds]

theorem mem_allPairs {crates : CrateCatalog} {c i : Nat} :
    (c, i) ∈ allPairs crates ↔ c < crates.length ∧ i ∈ catalogIds crates := by
  simp [allPairs, Finset.mem_product]

theorem resolveLookup_mem {k : Crate} {id : Nat} {it : Item}
    (h : resolveLookup k id = some it) :
    (id, it) ∈ k.index ∨ (k.root, it) ∈ k.index := by
  unfold resolveLookup at h
  cases hl : indexLookup k.index id with
  | some x =>
    rw [hl] at h
    simp at h
    exact h ▸ Or.inl (indexLookup_mem hl)
  | none =>
    rw [hl] at h
    exact Or.inr (indexLookup_mem h)

theorem resolveLookup_childIds {crates : CrateCatalog} {cur : Nat} {nm : String}
    {k : Crate} {id : Nat} {it : Item}
    (hs : slotGet crates cur = some (nm, k)) (hr : resolveLookup k id = some it) :
    ∀ x ∈ itemChildIds it.inner, x ∈ catalogIds crates := by
  intro x hx
  rcases resolveLookup_mem hr with h | h
  · exact mem_catalogIds (slotGet_mem hs) (childIds_sub_crateIds h x hx)
  · exact mem_catalogIds (slotGet_mem hs) (childIds_sub_crateIds h x hx)

theorem deficit_le_of_subset {crates : CrateCatalog} {v v' : Visited} (h : v ⊆ v') :
    deficit crates v' ≤ deficit crates v := by
  apply Finset.card_le_card
  apply Finset.sdiff_subset_sdiff (le_refl _)
  intro x hx
  exact List.mem_toFinset.mpr (h (List.mem_toFinset.mp hx))

theorem deficit_cons {crates : CrateCatalog} {v : Visited} {p : Nat × Nat}
    (hp : p ∈ allPairs crates) (hnv : p ∉ v) :
    deficit crates v = deficit crates (p :: v) + 1 := by
  have hmem : p ∈ allPairs crates \ v.toFinset :=
    Finset.mem_sdiff.mpr ⟨hp, fun hc => hnv (List.mem_toFinset.mp hc)⟩
  unfold deficit
  rw [List.toFinset_cons, Finset.sdiff_insert, Finset.card_erase_of_mem hmem]
  have hpos : 0 < (allPairs crates \ v.toFinset).card := Finset.card_pos.mpr ⟨p, hmem⟩
  omega

theorem mem_of_deficit_zero {crates : CrateCatalog} {v : Visited} {p : Nat × Nat}
    (h : deficit crates v = 0) (hp : p ∈ allPairs crates) : p ∈ v := by
  unfold deficit at h
  rw [Finset.card_eq_zero, Finset.sdiff_eq_empty_iff_subset] at h
  exact List.mem_toFinset.mp (h hp)

theorem resolveField_ne_outOfFuel (crates : CrateCatalog) (cur fid : Nat) :
    resolveField crates cur fid ≠ .error .outOfFuel := by
  intro h
  unfold resolveField at h
  split at h
  · simp at h
  · split at h
    · simp at h
    · split at h <;> simp at h

theorem collectFields_ne_outOfFuel (crates : CrateCatalog) (cur : Nat) (fs : List Nat) :
    collectFields crates cur fs ≠ .error .outOfFuel := by
  induction fs with
  | nil => simp [collectFields, pure, Except.pure]
  | cons fid rest ih =>
    intro h
    simp only [collectFields, Bind.bind, Except.bind] at h
    split at h
    · next e hf =>
      simp only [Except.error.injEq] at h
      exact resolveField_ne_outOfFuel crates cur fid (h ▸ hf)
    · split at h
      · next e hr =>
        simp only [Except.error.injEq] at h
        exact ih (h ▸ hr)
      · simp [pure, Except.pure] at h

theorem document_struct_ne_outOfFuel (item : Item) (stru : StructKind) (cur : Nat)
    (crates : CrateCatalog) :
    document_struct item stru cur crates ≠ .error .outOfFuel := by
  intro h
  unfold document_struct at h
  simp only [Bind.bind, Except.bind] at h
  split at h
  · simp at h
  · split at h
    · next heq => simp [pure, Except.pure] at heq
    · split at h
      · exact Except.noConfusion h
      · exact Except.noConfusion h
      · split at h
        · next e hc =>
          simp only [Except.error.injEq] at h
          exact collectFields_ne_outOfFuel crates cur _ (h ▸ hc)
        · exact Except.noConfusion h

theorem walkList_ne_outOfFuel {crates : CrateCatalog} {f : Nat}
    {g : Nat → Visited → Except WalkError (Visited × List EmitCall)}
    (hmono : ∀ i v v' es, g i v = .ok (v', es) → v ⊆ v')
    (ids : List Nat) :
    (∀ i ∈ ids, ∀ v, deficit crates v ≤ f → g i v ≠ .error .outOfFuel) →
    ∀ v, deficit crates v ≤ f → walkList g ids v ≠ .error .outOfFuel := by
  induction ids with
  | nil => intro _ v hv; simp [walkList]
  | cons i rest ih =>
    intro hg v hv
    simp only [walkList]
    cases hgi : g i v with
    | error e =>
      simp only [Bind.bind, Except.bind]
      intro hc
      exact hg i (by simp) v hv (hgi.trans hc)
    | ok p =>
      obtain ⟨v1, e1⟩ := p
      simp only [Bind.bind, Except.bind]
      have hv1 : deficit crates v1 ≤ f :=
        le_trans (deficit_le_of_subset (hmono i v v1 e1 hgi)) hv
      cases hrest : walkList g rest v1 with
      | error e =>
        intro hc
        exact ih (fun j hj => hg j (List.mem_cons_of_mem _ hj)) v1 hv1 (hrest.trans hc)
      | ok q => simp [pure, Except.pure]

theorem dispatchItem_ne_outOfFuel {crates : CrateCatalog} {f : Nat}
    {go : Nat → Nat → Visited → Except WalkError (Visited × List EmitCall)}
    (hgo : ∀ i c v, (c, i) ∈ allPairs crates → deficit crates v ≤ f →
      go i c v ≠ .error .outOfFuel)
    (hmono : ∀ i c v v' es, go i c v = .ok (v', es) → v ⊆ v')
    (item : Item) (cur : Nat) (v : Visited)
    (hchild : ∀ x ∈ itemChildIds item.inner, x ∈ catalogIds crates)
    (hcur : cur < crates.length)
    (hv : deficit crates v ≤ f) :
    dispatchItem go item cur crates v ≠ .error .outOfFuel := by
  cases hi : item.inner <;> rw [hi] at hchild <;>
    simp only [dispatchItem, hi, module_explorer, enum_explorer]
  case module items =>
    simp only [itemChildIds] at hchild
    refine walkList_ne_outOfFuel (fun i => hmono i cur) items ?_ v hv
    intro i hmem vv hvv
    exact hgo i cur vv (mem_allPairs.mpr ⟨hcur, hchild i hmem⟩) hvv
  case externCrate => simp
  case useDecl source pid =>
    simp only [itemChildIds] at hchild
    split
    · cases pid with
      | none => simp
      | some y =>
        exact hgo y cur v (mem_allPairs.mpr ⟨hcur, hchild y (by simp)⟩) hv
    · cases hf : findUnitByName crates (firstSegment source) with
      | some j =>
        have hj : j < crates.length := by
          obtain ⟨⟨k, hk⟩, -⟩ := findUnitByName_spec hf
          rw [List.getElem?_eq_some] at hk
          exact hk.1
        exact hgo u32Max j v
          (mem_allPairs.mpr ⟨hj, u32Max_mem_catalogIds crates⟩) hv
      | none =>
        cases pid with
        | none => simp
        | some y =>
          exact hgo y cur v (mem_allPairs.mpr ⟨hcur, hchild y (by simp)⟩) hv
  case unionDecl => simp
  case structDecl stru =>
    cases hd : document_struct item stru cur crates with
    | error e =>
      simp only [Bind.bind, Except.bind]
      intro hc
      simp only [Except.error.injEq] at hc
      exact document_struct_ne_outOfFuel item stru cur crates (hc ▸ hd)
    | ok e => simp [Bind.bind, Except.bind, pure, Except.pure]
  case structField => simp
  case enumDecl vs =>
    simp only [itemChildIds] at hchild
    refine walkList_ne_outOfFuel (fun i => hmono i cur) vs ?_ v hv
    intro i hmem vv hvv
    exact hgo i cur vv (mem_allPairs.mpr ⟨hcur, hchild i hmem⟩) hvv
  case variantDecl => simp
  case functionDecl => simp
  case traitDecl => simp
  case traitAlias => simp
  case implBlock => simp
  case typeAlias => simp
  case constantDecl => simp
  case staticDecl => simp
  case externType => simp
  case macroDecl => simp
  case procMacroDecl => simp
  case primitiveDecl => simp
  case assocConst => simp
  case assocType => simp

theorem item_explorer_ne_outOfFuel (crates : CrateCatalog) :
    ∀ fuel id cur v depth, (cur, id) ∈ allPairs crates → deficit crates v ≤ fuel →
      item_explorer fuel id cur crates v depth ≠ .error .outOfFuel := by
  intro fuel
  induction fuel with
  | zero =>
    intro id cur v depth hp hv
    simp only [item_explorer]
    split
    · simp
    · next hnv => exact absurd (mem_of_deficit_zero (Nat.le_zero.mp hv) hp) hnv
  | succ f ih =>
    intro id cur v depth hp hv
    simp only [item_explorer]
    split
    · simp
    · next hnv =>
      cases hs : slotGet crates cur with
      | none => simp
      | some nk =>
        obtain ⟨nm, k⟩ := nk
        simp only [hs]
        cases hr : resolveLookup k id with
        | none => simp [hr]
        | some item =>
          simp only [hr]
          have hdef : deficit crates ((cur, id) :: v) ≤ f := by
            have := deficit_cons hp hnv
            omega
          exact dispatchItem_ne_outOfFuel
            (fun i c vv hpc hvv => ih i c vv (depth + 1) hpc hvv)
            (fun i c vv v' es h => item_explorer_mono f i c crates vv (depth + 1) v' es h)
            item cur ((cur, id) :: v)
            (resolveLookup_childIds hs hr) (slotGet_lt hs) hdef

/-- C4: the traversal terminates on every finite catalog, cycles in the
re-export graph included: because every invocation marks its (unit, id)
pair before recursing and returns on an already-marked pair, the recursion
depth is bounded by the number of distinct reachable (unit, id) pairs, so
running `start_krate` with that much fuel never exhausts it — the walk
cannot loop forever. -/
theorem traversal_terminates (crates : CrateCatalog) :
    start_krate (fuelBound crates) crates ≠ .error .outOfFuel := by
  unfold start_krate
  cases hs : slotGet crates 0 with
  | none => simp
  | some nk =>
    obtain ⟨nm, k⟩ := nk
    have hp : (0, k.root) ∈ allPairs crates :=
      mem_allPairs.mpr
        ⟨slotGet_lt hs, mem_catalogIds (slotGet_mem hs) (root_mem_crateIds k)⟩
    have hv : deficit crates [] ≤ fuelBound crates := by
      unfold deficit fuelBound
      simp
    exact item_explorer_ne_outOfFuel crates (fuelBound crates) k.root 0 [] 0 hp hv

/-! ### The catalog-slot and root-fallback unwraps -/

theorem resolveField_ne_slotErr {crates : CrateCatalog} {cur : Nat}
    {nm : String} {k : Crate} (hs : slotGet crates cur = some (nm, k)) (fid : Nat) :
    ∀ e, resolveField crates cur fid = .error e →
      e ≠ .catalogMiss ∧ e ≠ .rootMiss := by
  intro e h
  unfold resolveField at h
  simp only [hs] at h
  split at h
  · simp at h
    constructor <;> (rw [← h]; simp)
  · split at h
    · simp at h
      constructor <;> (rw [← h]; simp)
    · simp at h

theorem collectFields_ne_slotErr {crates : CrateCatalog} {cur : Nat}
    {nm : String} {k : Crate} (hs : slotGet crates cur = some (nm, k)) (fs : List Nat) :
    ∀ e, collectFields crates cur fs = .error e →
      e ≠ .catalogMiss ∧ e ≠ .rootMiss := by
  induction fs with
  | nil => intro e h; simp [collectFields, pure, Except.pure] at h
  | cons fid rest ih =>
    intro e h
    simp only [collectFields, Bind.bind, Except.bind] at h
    split at h
    · next e' hf =>
      simp only [Except.error.injEq] at h
      exact h ▸ resolveField_ne_slotErr hs fid e' hf
    · split at h
      · next e' hr =>
        simp only [Except.error.injEq] at h
        exact h ▸ ih e' hr
      · simp [pure, Except.pure] at h

theorem document_struct_ne_slotErr {crates : CrateCatalog} {cur : Nat}
    {nm : String} {k : Crate} (hs : slotGet crates cur = some (nm, k))
    (item : Item) (stru : StructKind) :
    ∀ e, document_struct item stru cur crates = .error e →
      e ≠ .catalogMiss ∧ e ≠ .rootMiss := by
  intro e h
  unfold document_struct at h
  simp only [Bind.bind, Except.bind] at h
  split at h
  · simp at h
    constructor <;> (rw [← h]; simp)
  · split at h
    · next heq => simp [pure, Except.pure] at heq
    · split at h
      · exact Except.noConfusion h
      · exact Except.noConfusion h
      · split at h
        · next e' hc =>
          simp only [Except.error.injEq] at h
          exact h ▸ collectFields_ne_slotErr hs _ e' hc
        · exact Except.noConfusion h

theorem walkList_ne_slotErr
    {g : Nat → Visited → Except WalkError (Visited × List EmitCall)}
    (ids : List Nat)
    (hg : ∀ i ∈ ids, ∀ v e, g i v = .error e → e ≠ .catalogMiss ∧ e ≠ .rootMiss) :
    ∀ v e, walkList g ids v = .error e → e ≠ .catalogMiss ∧ e ≠ .rootMiss := by
  induction ids with
  | nil => intro v e h; simp [walkList, pure, Except.pure] at h
  | cons i rest ih =>
    intro v e h
    simp only [walkList, Bind.bind, Except.bind] at h
    split at h
    · next e' hgi =>
      simp only [Except.error.injEq] at h
      exact h ▸ hg i (by simp) v e' hgi
    · next p hgi =>
      split at h
      · next e' hrest =>
        simp only [Except.error.injEq] at h
        exact h ▸ ih (fun j hj => hg j (List.mem_cons_of_mem _ hj)) p.1 e' hrest
      · simp [pure, Except.pure] at h

theorem item_explorer_ne_slotErr {crates : CrateCatalog}
    (hroots : RootsResolve crates) :
    ∀ fuel id cur v depth, (∃ nk, slotGet crates cur = some nk) →
      ∀ e, item_explorer fuel id cur crates v depth = .error e →
        e ≠ .catalogMiss ∧ e ≠ .rootMiss := by
  intro fuel
  induction fuel with
  | zero =>
    intro id cur v depth hcur e h
    simp only [item_explorer] at h
    split at h
    · simp at h
    · simp at h
      constructor <;> (rw [← h]; simp)
  | succ f ih =>
    intro id cur v depth hcur e h
    obtain ⟨⟨nm, k⟩, hs⟩ := hcur
    simp only [item_explorer, hs] at h
    split at h
    · simp at h
    · next hnv =>
      cases hr : resolveLookup k id with
      | none =>
        exfalso
        unfold resolveLookup at hr
        split at hr
        · simp at hr
        · next hl =>
          have hrr := hroots _ (slotGet_mem hs)
          simp [rootResolves, hr] at hrr
      | some item =>
        simp only [hr] at h
        revert h
        generalize hvv : ((cur, id) :: v) = vv
        intro h
        cases hi : item.inner <;>
          simp only [dispatchItem, hi, module_explorer, enum_explorer] at h
        case module items =>
          exact walkList_ne_slotErr items
            (fun i _ vv' e' h' => ih i cur vv' (depth + 1) ⟨(nm, k), hs⟩ e' h')
            vv e h
        case externCrate => simp at h; constructor <;> (rw [← h]; simp)
        case useDecl source pid =>
          split at h
          · cases pid with
            | none => simp at h; constructor <;> (rw [← h]; simp)
            | some y => exact ih y cur vv (depth + 1) ⟨(nm, k), hs⟩ e h
          · cases hf : findUnitByName crates (firstSegment source) with
            | some j =>
              simp only [hf] at h
              obtain ⟨⟨kj, hkj⟩, -⟩ := findUnitByName_spec hf
              have hsj : slotGet crates j = some (firstSegment source, kj) := by
                unfold slotGet
                rw [hkj]
              exact ih u32Max j vv (depth + 1) ⟨_, hsj⟩ e h
            | none =>
              simp only [hf] at h
              cases pid with
              | none => simp at h; constructor <;> (rw [← h]; simp)
              | some y => exact ih y cur vv (depth + 1) ⟨(nm, k), hs⟩ e h
        case unionDecl => simp at h; constructor <;> (rw [← h]; simp)
        case structDecl stru =>
          simp only [Bind.bind, Except.bind] at h
          split at h
          · next e' hd =>
            simp only [Except.error.injEq] at h
            exact h ▸ document_struct_ne_slotErr hs item stru e' hd
          · simp [pure, Except.pure] at h
        case structField => simp at h
        case enumDecl vs =>
          exact walkList_ne_slotErr vs
            (fun i _ vv' e' h' => ih i cur vv' (depth + 1) ⟨(nm, k), hs⟩ e' h')
            vv e h
        case variantDecl => simp at h
        case functionDecl => simp at h
        case traitDecl => simp at h
        case traitAlias => simp at h; constructor <;> (rw [← h]; simp)
        case implBlock => simp at h
        case typeAlias => simp at h
        case constantDecl => simp at h
        case staticDecl => simp at h
        case externType => simp at h; constructor <;> (rw [← h]; simp)
        case macroDecl => simp at h
        case procMacroDecl => simp at h
        case primitiveDecl => simp at h; constructor <;> (rw [← h]; simp)
        case assocConst => simp at h; constructor <;> (rw [← h]; simp)
        case assocType => simp at h

/-- C10: under the preconditions that catalog slot 0 is present and every
present unit's root id is a key of its own symbol table, every recursive
walker invocation targets a unit whose catalog slot is present, so the
walker's catalog-slot access and its root-fallback lookup never fail — the
`catalogMiss` and `rootMiss` error branches (the source's unwraps) are
unreachable for any amount of fuel. -/
theorem catalog_and_root_unwraps_unreachable (crates : CrateCatalog) (fuel : Nat)
    (h0 : ∃ nk, slotGet crates 0 = some nk)
    (hroots : RootsResolve crates) :
    start_krate fuel crates ≠ .error .catalogMiss ∧
      start_krate fuel crates ≠ .error .rootMiss := by
  obtain ⟨⟨nm, k⟩, hs⟩ := h0
  unfold start_krate
  rw [hs]
  constructor
  · intro h
    exact (item_explorer_ne_slotErr hroots fuel k.root 0 [] 0 ⟨(nm, k), hs⟩ _ h).1 rfl
  · intro h
    exact (item_explorer_ne_slotErr hroots fuel k.root 0 [] 0 ⟨(nm, k), hs⟩ _ h).2 rfl

/-! ### The single productive step of the walker -/

theorem resolveLookup_of_hit {k : Crate} {id : Nat} {it : Item}
    (h : indexLookup k.index id = some it) : resolveLookup k id = some it := by
  unfold resolveLookup
  rw [h]

theorem resolveLookup_of_miss {k : Crate} {id : Nat} {rootIt : Item}
    (hmiss : indexLookup k.index id = none)
    (hroot : indexLookup k.index k.root = some rootIt) :
    resolveLookup k id = some rootIt := by
  unfold resolveLookup
  rw [hmiss, hroot]

theorem item_explorer_step (f id cur : Nat) (crates : CrateCatalog) (v : Visited)
    (depth : Nat) (nm : String) (k : Crate) (it : Item)
    (hs : slotGet crates cur = some (nm, k))
    (hr : resolveLookup k id = some it)
    (hnv : (cur, id) ∉ v) :
    item_explorer (f + 1) id cur crates v depth =
      dispatchItem (fun i c vv => item_explorer f i c crates vv (depth + 1))
        it cur crates ((cur, id) :: v) := by
  simp only [item_explorer, hs, hr, if_neg hnv]

theorem collectFields_ok {crates : CrateCatalog} {cur : Nat}
    {fname : Nat → String} {fdocs : Nat → Option String} :
    ∀ fs : List Nat,
      (∀ fid ∈ fs, resolveField crates cur fid = .ok (fname fid, fdocs fid)) →
      collectFields crates cur fs = .ok (fs.map fun fid => (fname fid, fdocs fid)) := by
  intro fs
  induction fs with
  | nil => intro _; simp [collectFields, pure, Except.pure]
  | cons fid rest ih =>
    intro hall
    simp only [collectFields, Bind.bind, Except.bind, hall fid (by simp)]
    rw [ih (fun j hj => hall j (List.mem_cons_of_mem _ hj))]
    simp [pure, Except.pure]

/-! ### Claim theorems -/

/-- C1: idempotent visitation — for every (unit, id) pair the walker
performs its dispatch logic at most once per traversal: each invocation
first records its pair, an invocation whose pair is already in the visited
set returns immediately with no lookup, recursion or emission and with the
set unchanged, and every successful invocation leaves its pair recorded in
the returned set. -/
theorem idempotent_visitation :
    (∀ fuel id cur crates v depth, (cur, id) ∈ v →
      item_explorer fuel id cur crates v depth = .ok (v, [])) ∧
    (∀ fuel id cur crates v depth v' es,
      item_explorer fuel id cur crates v depth = .ok (v', es) → (cur, id) ∈ v') := by
  constructor
  · intro fuel id cur crates v depth h
    cases fuel <;> simp [item_explorer, h]
  · intro fuel id cur crates v depth v' es h
    cases fuel with
    | zero =>
      simp only [item_explorer] at h
      split at h
      · next hmem => simp at h; exact h.1 ▸ hmem
      · simp at h
    | succ f =>
      simp only [item_explorer] at h
      split at h
      · next hmem => simp at h; exact h.1 ▸ hmem
      · next hnv =>
        split at h
        · simp at h
        · next nm k heq =>
          split at h
          · simp at h
          · next it hr =>
            have hsub := dispatchItem_mono
              (fun i c vv v'' es' h' =>
                item_explorer_mono f i c crates vv (depth + 1) v'' es' h')
              it cur crates ((cur, id) :: v) v' es h
            exact hsub (by simp)

/-- C1 witness: on a concrete catalog, an invocation whose pair is already
visited returns the set unchanged with no emission, and its pair is in the
returned set. -/
theorem idempotent_visitation_witness :
    item_explorer 5 0 0 catSentinelFree [(0, 0)] 0 = .ok ([(0, 0)], []) ∧
      (0, 0) ∈ [(0, 0)] :=
  ⟨idempotent_visitation.1 5 0 0 catSentinelFree [(0, 0)] 0 (by decide),
   idempotent_visitation.2 5 0 0 catSentinelFree [(0, 0)] 0 [(0, 0)] []
     (idempotent_visitation.1 5 0 0 catSentinelFree [(0, 0)] 0 (by decide))⟩

/-- C3: root fallback — when id is absent from the unit's symbol table and
the pair is unvisited, the walker does not fail: it substitutes the unit's
root record and dispatches on the root record's kind. -/
theorem root_fallback (f id cur : Nat) (crates : CrateCatalog) (v : Visited)
    (depth : Nat) (nm : String) (k : Crate) (rootIt : Item)
    (hs : slotGet crates cur = some (nm, k))
    (hmiss : indexLookup k.index id = none)
    (hroot : indexLookup k.index k.root = some rootIt)
    (hnv : (cur, id) ∉ v) :
    item_explorer (f + 1) id cur crates v depth =
      dispatchItem (fun i c vv => item_explorer f i c crates vv (depth + 1))
        rootIt cur crates ((cur, id) :: v) :=
  item_explorer_step f id cur crates v depth nm k rootIt hs
    (resolveLookup_of_miss hmiss hroot) hnv

/-- C3 witness: in `catRootFall`, id 5 is absent from the table, and the
walk at (0, 5) dispatches on the root module record instead of failing. -/
theorem root_fallback_witness :
    item_explorer 4 5 0 catRootFall [] 0 =
      dispatchItem (fun i c vv => item_explorer 3 i c catRootFall vv 1)
        ⟨some "m", none, .module []⟩ 0 catRootFall [(0, 5)] :=
  root_fallback 3 5 0 catRootFall [] 0 "m" ⟨0, [(0, ⟨some "m", none, .module []⟩)]⟩
    ⟨some "m", none, .module []⟩ (by decide) (by decide) (by decide) (by decide)

/-- C5: unsupported kinds abort — a visited symbol whose kind is in the
unsupported set (union, trait alias, extern type, extern crate, primitive,
associated constant) makes dispatch abort the whole traversal with a fatal
error rather than skipping to siblings; and once a walker call inside a
sibling sequence errors, the whole sequence returns that error, so no later
sibling is visited and no document is emitted. -/
theorem unsupported_kind_aborts :
    (∀ f id cur crates v depth nm k it,
      slotGet crates cur = some (nm, k) → resolveLookup k id = some it →
      UnsupportedKind it.inner → (cur, id) ∉ v →
      item_explorer (f + 1) id cur crates v depth = .error .unsupported) ∧
    (∀ g : Nat → Visited → Except WalkError (Visited × List EmitCall),
      ∀ pre b post v v1 es1 e, walkList g pre v = .ok (v1, es1) →
        g b v1 = .error e → walkList g (pre ++ b :: post) v = .error e) := by
  constructor
  · intro f id cur crates v depth nm k it hs hr hu hnv
    rw [item_explorer_step f id cur crates v depth nm k it hs hr hnv]
    rcases hu with hu | hu | hu | hu | hu | hu <;> simp [dispatchItem, hu]
  · intro g pre
    induction pre with
    | nil =>
      intro b post v v1 es1 e hpre hb
      simp only [walkList, pure, Except.pure, Except.ok.injEq, Prod.mk.injEq] at hpre
      obtain ⟨rfl, -⟩ := hpre
      simp only [List.nil_append, walkList, Bind.bind, Except.bind, hb]
    | cons i rest ih =>
      intro b post v v1 es1 e hpre hb
      simp only [walkList, Bind.bind, Except.bind] at hpre
      split at hpre
      · exact Except.noConfusion hpre
      · next p hgi =>
        split at hpre
        · exact Except.noConfusion hpre
        · next q hrest =>
          simp only [pure, Except.pure, Except.ok.injEq, Prod.mk.injEq] at hpre
          simp only [List.cons_append, walkList, Bind.bind, Except.bind, hgi,
            List.append_eq]
          rw [ih b post p.1 q.1 q.2 e (by rw [hrest])
            (by rw [hpre.1]; exact hb)]

/-- C5 witness: in `catUnsupported` the root module's first child is a
union; the whole traversal aborts with the unsupported error and the
sibling struct at id 2 produces no document; and the sibling-sequence
conjunct is instantiated on the same catalog. -/
theorem unsupported_kind_aborts_witness :
    item_explorer 3 1 0 catUnsupported [(0, 0)] 1 = .error .unsupported ∧
      walkList (fun i vv => item_explorer 3 i 0 catUnsupported vv 2) ([] ++ 1 :: [2])
        [(0, 0)] = .error .unsupported ∧
      start_krate 9 catUnsupported = .error .unsupported :=
  ⟨unsupported_kind_aborts.1 2 1 0 catUnsupported [(0, 0)] 1 "m"
      ⟨0, [(0, ⟨some "m", none, .module [1, 2]⟩), (1, ⟨some "U", none, .unionDecl⟩),
           (2, ⟨some "S", none, .structDecl .unit⟩)]⟩
      ⟨some "U", none, .unionDecl⟩
      (by decide) (by decide) (Or.inr (Or.inl rfl)) (by decide),
   unsupported_kind_aborts.2 (fun i vv => item_explorer 3 i 0 catUnsupported vv 2)
      [] 1 [2] [(0, 0)] [(0, 0)] [] .unsupported (by decide) (by decide),
   by decide⟩

/-- C8: same-unit re-export — a re-export whose first path segment is one
of the two reserved prefixes (`crate` / `super`) and which carries a
pre-resolved id continues the walk at (current unit, that id); in both the
reserved-prefix case and the no-unit-matches fallback case, an absent
pre-resolved id is a fatal error. -/
theorem same_unit_reexport :
    (∀ f id cur crates v depth nm k it src pid y,
      slotGet crates cur = some (nm, k) → resolveLookup k id = some it →
      it.inner = .useDecl src pid →
      (firstSegment src = "crate" ∨ firstSegment src = "super") →
      pid = some y → (cur, id) ∉ v →
      item_explorer (f + 1) id cur crates v depth =
        item_explorer f y cur crates ((cur, id) :: v) (depth + 1)) ∧
    (∀ f id cur crates v depth nm k it src,
      slotGet crates cur = some (nm, k) → resolveLookup k id = some it →
      it.inner = .useDecl src none →
      (firstSegment src = "crate" ∨ firstSegment src = "super") →
      (cur, id) ∉ v →
      item_explorer (f + 1) id cur crates v depth = .error .useIdMiss) ∧
    (∀ f id cur crates v depth nm k it src,
      slotGet crates cur = some (nm, k) → resolveLookup k id = some it →
      it.inner = .useDecl src none →
      firstSegment src ≠ "crate" → firstSegment src ≠ "super" →
      findUnitByName crates (firstSegment src) = none →
      (cur, id) ∉ v →
      item_explorer (f + 1) id cur crates v depth = .error .useIdMiss) := by
  refine ⟨?_, ?_, ?_⟩
  · intro f id cur crates v depth nm k it src pid y hs hr hi hres hpid hnv
    rw [item_explorer_step f id cur crates v depth nm k it hs hr hnv]
    subst hpid
    simp [dispatchItem, hi, hres]
  · intro f id cur crates v depth nm k it src hs hr hi hres hnv
    rw [item_explorer_step f id cur crates v depth nm k it hs hr hnv]
    simp [dispatchItem, hi, hres]
  · intro f id cur crates v depth nm k it src hs hr hi hc hsup hfind hnv
    rw [item_explorer_step f id cur crates v depth nm k it hs hr hnv]
    simp [dispatchItem, hi, hc, hsup, hfind]

/-- C8 witness: in `catCrateUse` the re-export `crate::x` with pre-resolved
id 2 steps to (unit 0, id 2); and concrete no-id variants of the catalog
produce the fatal missing-id error. -/
theorem same_unit_reexport_witness :
    item_explorer 4 1 0 catCrateUse [(0, 0)] 1 =
      item_explorer 3 2 0 catCrateUse [(0, 1), (0, 0)] 2 ∧
    item_explorer 4 1 0
        [some ("m", ⟨0, [(1, ⟨none, none, .useDecl "crate::x" none⟩)]⟩)] [] 1 =
      .error .useIdMiss ∧
    item_explorer 4 1 0
        [some ("m", ⟨0, [(1, ⟨none, none, .useDecl "nodep::x" none⟩)]⟩)] [] 1 =
      .error .useIdMiss :=
  ⟨same_unit_reexport.1 3 1 0 catCrateUse [(0, 0)] 1 "m"
      ⟨0, [(0, ⟨some "m", none, .module [1]⟩),
           (1, ⟨none, none, .useDecl "crate::x" (some 2)⟩),
           (2, ⟨some "f", none, .functionDecl⟩)]⟩
      ⟨none, none, .useDecl "crate::x" (some 2)⟩ "crate::x" (some 2) 2
      (by decide) (by decide) rfl (Or.inl (by decide)) rfl (by decide),
   same_unit_reexport.2.1 3 1 0
      [some ("m", ⟨0, [(1, ⟨none, none, .useDecl "crate::x" none⟩)]⟩)] [] 1 "m"
      ⟨0, [(1, ⟨none, none, .useDecl "crate::x" none⟩)]⟩
      ⟨none, none, .useDecl "crate::x" none⟩ "crate::x"
      (by decide) (by decide) rfl (Or.inl (by decide)) (by decide),
   same_unit_reexport.2.2 3 1 0
      [some ("m", ⟨0, [(1, ⟨none, none, .useDecl "nodep::x" none⟩)]⟩)] [] 1 "m"
      ⟨0, [(1, ⟨none, none, .useDecl "nodep::x" none⟩)]⟩
      ⟨none, none, .useDecl "nodep::x" none⟩ "nodep::x"
      (by decide) (by decide) rfl (by decide) (by decide) (by decide) (by decide)⟩

/-- C9: sum record asymmetry — a visited sum record dispatches each of its
variant ids in order and in full, but produces no emitter call for the
record itself; variant dispatch is a defined no-op; when every variant id
resolves to a variant record, the whole fan-out succeeds with zero
emissions and every variant pair marked visited. -/
theorem sum_record_asymmetry :
    (∀ f id cur crates v depth nm k it vs,
      slotGet crates cur = some (nm, k) → resolveLookup k id = some it →
      it.inner = .enumDecl vs → (cur, id) ∉ v →
      item_explorer (f + 1) id cur crates v depth =
        enum_explorer (fun i c vv => item_explorer f i c crates vv (depth + 1))
          vs cur ((cur, id) :: v)) ∧
    (∀ go it cur crates v, it.inner = .variantDecl →
      dispatchItem go it cur crates v = .ok (v, [])) ∧
    (∀ f cur crates nm k depth, slotGet crates cur = some (nm, k) →
      ∀ vs, (∀ vi ∈ vs, ∃ vit, indexLookup k.index vi = some vit ∧
          vit.inner = .variantDecl) →
        ∀ v, ∃ v',
          enum_explorer (fun i c vv => item_explorer (f + 1) i c crates vv (depth + 1))
              vs cur v = .ok (v', []) ∧
            v ⊆ v' ∧ ∀ vi ∈ vs, (cur, vi) ∈ v') := by
  refine ⟨?_, ?_, ?_⟩
  · intro f id cur crates v depth nm k it vs hs hr hi hnv
    rw [item_explorer_step f id cur crates v depth nm k it hs hr hnv]
    simp [dispatchItem, hi]
  · intro go it cur crates v hi
    simp [dispatchItem, hi]
  · intro f cur crates nm k depth hs vs
    induction vs with
    | nil =>
      intro _ v
      exact ⟨v, by simp [enum_explorer, walkList], fun a ha => ha, by simp⟩
    | cons vi rest ih =>
      intro hall v
      obtain ⟨vit, hvit, hkind⟩ := hall vi (by simp)
      by_cases hmem : (cur, vi) ∈ v
      · obtain ⟨v', hwalk, hsub, hall'⟩ :=
          ih (fun j hj => hall j (List.mem_cons_of_mem _ hj)) v
        refine ⟨v', ?_, hsub, ?_⟩
        · have h1 : item_explorer (f + 1) vi cur crates v (depth + 1) = .ok (v, []) := by
            simp [item_explorer, hmem]
          simp only [enum_explorer, walkList, Bind.bind, Except.bind, h1]
          simp only [enum_explorer] at hwalk
          simp only [hwalk]
          simp [pure, Except.pure]
        · intro x hx
          rcases List.mem_cons.1 hx with rfl | hx'
          · exact hsub hmem
          · exact hall' x hx'
      · have h1 : item_explorer (f + 1) vi cur crates v (depth + 1) =
            .ok ((cur, vi) :: v, []) := by
          rw [item_explorer_step f vi cur crates v (depth + 1) nm k vit hs
            (resolveLookup_of_hit hvit) hmem]
          simp [dispatchItem, hkind]
        obtain ⟨v', hwalk, hsub, hall'⟩ :=
          ih (fun j hj => hall j (List.mem_cons_of_mem _ hj)) ((cur, vi) :: v)
        refine ⟨v', ?_, (List.subset_cons_self _ _).trans hsub, ?_⟩
        · simp only [enum_explorer, walkList, Bind.bind, Except.bind, h1]
          simp only [enum_explorer] at hwalk
          simp only [hwalk]
          simp [pure, Except.pure]
        · intro x hx
          rcases List.mem_cons.1 hx with rfl | hx'
          · exact hsub (by simp)
          · exact hall' x hx'

/-- C9 witness: in `catEnum` the enum at (0, 1) fans out into its two
variants; the full traversal marks both variant pairs visited and emits
nothing. -/
theorem sum_record_asymmetry_witness :
    item_explorer 4 1 0 catEnum [(0, 0)] 1 =
      enum_explorer (fun i c vv => item_explorer 3 i c catEnum vv 2) [2, 3] 0
        [(0, 1), (0, 0)] ∧
    dispatchItem (fun i c vv => item_explorer 3 i c catEnum vv 2)
        ⟨some "A", none, .variantDecl⟩ 0 catEnum [(0, 2)] = .ok ([(0, 2)], []) ∧
    (∃ v', enum_explorer (fun i c vv => item_explorer 4 i c catEnum vv 3) [2, 3] 0
        [(0, 1), (0, 0)] = .ok (v', []) ∧
      [(0, 1), (0, 0)] ⊆ v' ∧ ∀ vi ∈ [2, 3], (0, vi) ∈ v') ∧
    start_krate 9 catEnum = .ok ([(0, 3), (0, 2), (0, 1), (0, 0)], []) :=
  ⟨sum_record_asymmetry.1 3 1 0 catEnum [(0, 0)] 1 "m"
      ⟨0, [(0, ⟨some "m", none, .module [1]⟩), (1, ⟨some "E", none, .enumDecl [2, 3]⟩),
           (2, ⟨some "A", none, .variantDecl⟩), (3, ⟨some "B", none, .variantDecl⟩)]⟩
      ⟨some "E", none, .enumDecl [2, 3]⟩ [2, 3]
      (by decide) (by decide) rfl (by decide),
   sum_record_asymmetry.2.1 (fun i c vv => item_explorer 3 i c catEnum vv 2)
      ⟨some "A", none, .variantDecl⟩ 0 catEnum [(0, 2)] rfl,
   sum_record_asymmetry.2.2 3 0 catEnum "m"
      ⟨0, [(0, ⟨some "m", none, .module [1]⟩), (1, ⟨some "E", none, .enumDecl [2, 3]⟩),
           (2, ⟨some "A", none, .variantDecl⟩), (3, ⟨some "B", none, .variantDecl⟩)]⟩
      2 (by decide) [2, 3]
      (by intro vi hvi
          rcases List.mem_cons.1 hvi with rfl | hvi'
          · exact ⟨⟨some "A", none, .variantDecl⟩, by decide, rfl⟩
          · simp only [List.mem_singleton] at hvi'
            subst hvi'
            exact ⟨⟨some "B", none, .variantDecl⟩, by decide, rfl⟩)
      [(0, 1), (0, 0)],
   by decide⟩

/-- C2 counterexample: the claim asserts the sentinel id always fails the
dependency's symbol-table lookup, so a cross-unit re-export re-enters the
dependency at its root module.  In `catSentinelKeyed` the dependency's
table genuinely contains the key u32::MAX (mapped to a function item), so
the walk dispatches on that item instead: the dependency's root module is
never re-entered, its child struct (unit 1, id 1) is never visited, and the
traversal emits nothing — while the dependency's root record is a module
whose only child is that documented struct. -/
theorem cross_unit_reexport_counterexample :
    start_krate 10 catSentinelKeyed = .ok ([(1, u32Max), (0, 1), (0, 0)], []) ∧
      (1, 1) ∉ [(1, u32Max), (0, 1), (0, 0)] ∧
      indexLookup depCrateKeyed.index u32Max = some ⟨some "f", none, .functionDecl⟩ ∧
      slotGet catSentinelKeyed 1 = some ("dep", depCrateKeyed) ∧
      indexLookup depCrateKeyed.index depCrateKeyed.root =
        some ⟨some "dep", none, .module [1]⟩ ∧
      indexLookup depCrateKeyed.index 1 =
        some ⟨some "Target", some "target docs", .structDecl .unit⟩ := by
  refine ⟨by decide, by decide, by decide, by decide, by decide, by decide⟩

/-- C2 (amended): a re-export whose first path segment (before the `::`
separator) is not a reserved prefix and equals the name of a present
catalog unit continues the walk at (matched unit, u32::MAX), the
lowest-indexed present unit with that name winning; when u32::MAX is not a
key of the matched unit's symbol table — as in all real rustdoc output —
that lookup fails and the root-fallback policy re-enters the dependency at
its root module, regardless of the remaining path segments; if u32::MAX is
a key, the walk dispatches on that symbol instead. -/
theorem cross_unit_reexport_amended :
    (∀ f id cur crates v depth nm k it src pid j,
      slotGet crates cur = some (nm, k) → resolveLookup k id = some it →
      it.inner = .useDecl src pid →
      firstSegment src ≠ "crate" → firstSegment src ≠ "super" →
      findUnitByName crates (firstSegment src) = some j →
      (cur, id) ∉ v →
      item_explorer (f + 1) id cur crates v depth =
        item_explorer f u32Max j crates ((cur, id) :: v) (depth + 1)) ∧
    (∀ f j crates v depth nmj kj rootIt,
      slotGet crates j = some (nmj, kj) →
      indexLookup kj.index u32Max = none →
      indexLookup kj.index kj.root = some rootIt →
      (j, u32Max) ∉ v →
      item_explorer (f + 1) u32Max j crates v depth =
        dispatchItem (fun i c vv => item_explorer f i c crates vv (depth + 1))
          rootIt j crates ((j, u32Max) :: v)) ∧
    (∀ crates : CrateCatalog, ∀ n j, findUnitByName crates n = some j →
      (∃ k, crates[j]? = some (some (n, k))) ∧
        ∀ i, i < j → ∀ nm k, crates[i]? = some (some (nm, k)) → nm ≠ n) := by
  refine ⟨?_, ?_, ?_⟩
  · intro f id cur crates v depth nm k it src pid j hs hr hi hc hsup hfind hnv
    rw [item_explorer_step f id cur crates v depth nm k it hs hr hnv]
    simp [dispatchItem, hi, hc, hsup, hfind]
  · intro f j crates v depth nmj kj rootIt hs hmiss hroot hnv
    exact item_explorer_step f u32Max j crates v depth nmj kj rootIt hs
      (resolveLookup_of_miss hmiss hroot) hnv
  · intro crates n j h
    exact findUnitByName_spec h

/-- C2 witness: in `catSentinelFree` the re-export `dep::thing` steps to
(unit 1, u32::MAX); the sentinel misses the table, so the walk dispatches
on the dependency's root module record, and the full traversal emits the
dependency's struct. -/
theorem cross_unit_reexport_amended_witness :
    item_explorer 5 1 0 catSentinelFree [(0, 0)] 1 =
      item_explorer 4 u32Max 1 catSentinelFree [(0, 1), (0, 0)] 2 ∧
    item_explorer 4 u32Max 1 catSentinelFree [(0, 1), (0, 0)] 2 =
      dispatchItem (fun i c vv => item_explorer 3 i c catSentinelFree vv 3)
        ⟨some "dep", none, .module [1]⟩ 1 catSentinelFree
        [(1, u32Max), (0, 1), (0, 0)] ∧
    findUnitByName catSentinelFree "dep" = some 1 ∧
    start_krate 10 catSentinelFree =
      .ok ([(1, 1), (1, u32Max), (0, 1), (0, 0)],
        [⟨"Target", some "target docs", []⟩]) :=
  ⟨cross_unit_reexport_amended.1 4 1 0 catSentinelFree [(0, 0)] 1 "main"
      mainCrateUse ⟨none, none, .useDecl "dep::thing" (some 99)⟩ "dep::thing"
      (some 99) 1 (by decide) (by decide) rfl (by decide) (by decide) (by decide)
      (by decide),
   cross_unit_reexport_amended.2.1 3 1 catSentinelFree [(0, 1), (0, 0)] 2 "dep"
      depCrateFree ⟨some "dep", none, .module [1]⟩ (by decide) (by decide)
      (by decide) (by decide),
   by decide, by decide⟩

/-- C6 counterexample: the claim asserts every emitter call receives a
non-empty name, but the core only unwraps the optional name and never
checks emptiness: in `catEmptyName` a unit struct whose display name is
`Some("")` is traversed successfully and the emitter is called with the
empty string as name. -/
theorem emitter_name_nonempty_counterexample :
    start_krate 10 catEmptyName = .ok ([(0, 1), (0, 0)], [⟨"", none, []⟩]) ∧
      ("" : String).length = 0 :=
  ⟨by decide, rfl⟩

/-- C6 (amended): for every call the core makes to the leaf document
emitter, the name argument is the record's display name — guaranteed
present (the unwrap succeeded) but possibly empty — the documentation is
the record's, and the fields argument is the empty list unless the record
is a named-field (`Plain`) product record. -/
theorem emitter_contract_amended (item : Item) (stru : StructKind) (cur : Nat)
    (crates : CrateCatalog) (e : EmitCall)
    (h : document_struct item stru cur crates = .ok e) :
    item.name = some e.name ∧ e.docs = item.docs ∧
      (e.fields ≠ [] → ∃ fs b, stru = .plain fs b) := by
  unfold document_struct at h
  simp only [Bind.bind, Except.bind, pure, Except.pure] at h
  split at h
  · exact Except.noConfusion h
  · next n hn =>
    split at h
    · simp only [Except.ok.injEq] at h
      exact h ▸ ⟨hn, rfl, fun hf => absurd rfl hf⟩
    · simp only [Except.ok.injEq] at h
      exact h ▸ ⟨hn, rfl, fun hf => absurd rfl hf⟩
    · next fs b =>
      split at h
      · exact Except.noConfusion h
      · simp only [Except.ok.injEq] at h
        exact h ▸ ⟨hn, rfl, fun _ => ⟨fs, b, rfl⟩⟩

/-- C6 witness: a concrete successful emission, with the conclusions of the
amended contract instantiated on it. -/
theorem emitter_contract_amended_witness :
    (⟨some "S", none, .structDecl .unit⟩ : Item).name = some ("S" : String) ∧
      (none : Option String) = (⟨some "S", none, .structDecl .unit⟩ : Item).docs ∧
      (([] : List (String × Option String)) ≠ [] →
        ∃ fs b, StructKind.unit = .plain fs b) := by
  have h : document_struct ⟨some "S", none, .structDecl .unit⟩ .unit 0 catPlain =
      .ok ⟨"S", none, []⟩ := by decide
  exact emitter_contract_amended ⟨some "S", none, .structDecl .unit⟩ .unit 0 catPlain
    ⟨"S", none, []⟩ h

/-- C7: named-field emission — a visited product record produces exactly
one emitter call; for a named-field (`Plain`) record the call carries
exactly the (name, documentation) pairs of its fields in declared order,
each field resolved in the same unit's table as the record; for a unit or
tuple record the call carries an empty field list even if positional
fields carry documentation. -/
theorem struct_field_emission :
    (∀ f id cur crates v depth nm k it stru,
      slotGet crates cur = some (nm, k) → resolveLookup k id = some it →
      it.inner = .structDecl stru → (cur, id) ∉ v →
      item_explorer (f + 1) id cur crates v depth =
        Except.map (fun e => ((cur, id) :: v, [e]))
          (document_struct it stru cur crates)) ∧
    (∀ it cur crates nmI fs b (fname : Nat → String) (fdocs : Nat → Option String),
      it.name = some nmI →
      (∀ fid ∈ fs, resolveField crates cur fid = .ok (fname fid, fdocs fid)) →
      document_struct it (.plain fs b) cur crates =
        .ok ⟨nmI, it.docs, fs.map (fun fid => (fname fid, fdocs fid))⟩) ∧
    (∀ it cur crates nmI tfs, it.name = some nmI →
      document_struct it .unit cur crates = .ok ⟨nmI, it.docs, []⟩ ∧
      document_struct it (.tuple tfs) cur crates = .ok ⟨nmI, it.docs, []⟩) ∧
    (∀ crates cur fid nmF dF nmU k,
      slotGet crates cur = some (nmU, k) →
      indexLookup k.index fid = some ⟨some nmF, dF, .structField⟩ →
      resolveField crates cur fid = .ok (nmF, dF)) := by
  refine ⟨?_, ?_, ?_, ?_⟩
  · intro f id cur crates v depth nm k it stru hs hr hi hnv
    rw [item_explorer_step f id cur crates v depth nm k it hs hr hnv]
    cases hd : document_struct it stru cur crates <;>
      simp [dispatchItem, hi, hd, Except.map, Bind.bind, Except.bind, pure,
        Except.pure]
  · intro it cur crates nmI fs b fname fdocs hn hall
    unfold document_struct
    simp only [hn, Bind.bind, Except.bind, pure, Except.pure]
    rw [collectFields_ok fs hall]
  · intro it cur crates nmI tfs hn
    constructor <;> simp [document_struct, hn, Bind.bind, Except.bind, pure,
      Except.pure]
  · intro crates cur fid nmF dF nmU k hs hl
    unfold resolveField
    simp only [hs, hl]

/-- C7 witness: in `catPlain` the plain struct S with fields
[("a", doc), ("b", no doc)] produces exactly one emitter call carrying
those pairs in order; the full traversal's emission list is exactly that
call. -/
theorem struct_field_emission_witness :
    item_explorer 4 1 0 catPlain [(0, 0)] 1 =
      Except.map (fun e => ([(0, 1), (0, 0)], [e]))
        (document_struct ⟨some "S", some "sdoc", .structDecl (.plain [2, 3] false)⟩
          (.plain [2, 3] false) 0 catPlain) ∧
    document_struct ⟨some "S", some "sdoc", .structDecl (.plain [2, 3] false)⟩
        (.plain [2, 3] false) 0 catPlain =
      .ok ⟨"S", some "sdoc",
        [2, 3].map (fun fid =>
          (if fid = 2 then "a" else "b", if fid = 2 then some "doc a" else none))⟩ ∧
    start_krate 9 catPlain =
      .ok ([(0, 1), (0, 0)],
        [⟨"S", some "sdoc", [("a", some "doc a"), ("b", none)]⟩]) :=
  ⟨struct_field_emission.1 3 1 0 catPlain [(0, 0)] 1 "m"
      ⟨0, [(0, ⟨some "m", none, .module [1]⟩),
           (1, ⟨some "S", some "sdoc", .structDecl (.plain [2, 3] false)⟩),
           (2, ⟨some "a", some "doc a", .structField⟩),
           (3, ⟨some "b", none, .structField⟩)]⟩
      ⟨some "S", some "sdoc", .structDecl (.plain [2, 3] false)⟩ (.plain [2, 3] false)
      (by decide) (by decide) rfl (by decide),
   struct_field_emission.2.1 ⟨some "S", some "sdoc", .structDecl (.plain [2, 3] false)⟩
      0 catPlain "S" [2, 3] false
      (fun fid => if fid = 2 then "a" else "b")
      (fun fid => if fid = 2 then some "doc a" else none)
      rfl (by decide),
   by decide⟩

/-- C4 witness: on a concrete catalog the fuel bound evaluates to the
number of reachable (unit, id) pairs and the traversal completes without
exhausting it. -/
theorem traversal_terminates_witness :
    start_krate (fuelBound catEnum) catEnum ≠ .error .outOfFuel ∧
      start_krate (fuelBound catEnum) catEnum =
        .ok ([(0, 3), (0, 2), (0, 1), (0, 0)], []) :=
  ⟨traversal_terminates catEnum, by decide⟩

/-- C10 witness: on a concrete catalog satisfying both preconditions, the
traversal hits neither the catalog-slot nor the root-fallback unwrap. -/
theorem catalog_and_root_unwraps_unreachable_witness :
    start_krate 10 catSentinelFree ≠ .error .catalogMiss ∧
      start_krate 10 catSentinelFree ≠ .error .rootMiss :=
  catalog_and_root_unwraps_unreachable catSentinelFree 10
    ⟨("main", mainCrateUse), by decide⟩ (by decide)

end RustdocRag
